import Mathlib

/-!
Shallow embedding of the laundry-scheduler in-memory queue store.

The repository holds two coexisting implementations of the same queue model:
* `src/models/schedule.go` (second half of that file), embedded below in
  namespace `Sched`; its `GetAll` mutates statuses and evicts on read, and its
  `IsTimerExpired` compares the clock against the end time directly.
* `src/unnamed/part_003`, embedded below in namespace `P3`; its `GetAll` only
  copies, and its `IsTimerExpired` is derived from the truncated
  `GetRemainingMinutes`.

Modelling conventions:
* Time instants (`time.Time`) are integers counted in seconds; `Duration` is
  the Go `int` field counted in minutes, so an item started at `s` with
  duration `d` ends at `s + 60 * d` seconds.
* Go's `time.Until(end).Minutes()` followed by `int(...)` truncates a
  non-negative remainder toward zero; at second granularity this is natural
  division of the remaining seconds by 60, written `remaining.toNat / 60`.
* `time.Now().Format("20060102150405")` is a second-resolution timestamp
  string; it is modelled as the decimal string of the current second, so two
  calls in the same second with the same name yield the same identifier,
  exactly as in Go.
* The store state is the `items` slice, a `List QueueItem`; every operation is
  a pure function from the old state (plus the current instant `now`) to its
  result and the new state.
-/

/-- QueueItem mirrors the Go struct of the same name (identical in both
files): identifier, holder name, status string, optional start instant,
duration in minutes, load count, optional completion instant, enqueue
instant. -/
structure QueueItem where
  ID : String
  Name : String
  Status : String
  StartTime : Option Int
  Duration : Int
  NumLoads : Int
  CompletedAt : Option Int
  QueuedAt : Int
deriving DecidableEq, Repr

/-- ShouldAutoRemove mirrors the identical Go method in both files: a
completed item with a completion stamp is removed once strictly more than
5 minutes (300 seconds) have passed since completion. -/
def QueueItem.ShouldAutoRemove (q : QueueItem) (now : Int) : Bool :=
  if q.Status = "completed" then
    match q.CompletedAt with
    | none => false
    | some c => decide (now - c > 300)
  else false

/-- makeID models `time.Now().Format("20060102150405") + "-" + name`: a
second-resolution timestamp rendered as a string, joined to the name. -/
def makeID (now : Int) (name : String) : String :=
  toString now ++ "-" ++ name

namespace P3

/-- GetRemainingMinutes from `src/unnamed/part_003` lines 34-45: zero unless
in-progress with a start time and nonzero duration; otherwise the remaining
time truncated to whole minutes, clamped below at zero. -/
def GetRemainingMinutes (q : QueueItem) (now : Int) : Int :=
  if q.Status ≠ "in_progress" then 0
  else match q.StartTime with
    | none => 0
    | some s =>
      if q.Duration = 0 then 0
      else
        let remaining : Int := s + 60 * q.Duration - now
        if remaining < 0 then 0 else ((remaining.toNat / 60 : Nat) : Int)

/-- IsTimerExpired from `src/unnamed/part_003` lines 47-50: expired when the
truncated remaining minutes is at most zero. -/
def IsTimerExpired (q : QueueItem) (now : Int) : Bool :=
  decide (GetRemainingMinutes q now ≤ 0)

/-- Status transition performed by the background worker of
`src/unnamed/part_003` lines 82-87 on a single item: an expired in-progress
item becomes completed with the completion stamp set to `now`. -/
def sweepUpdate (now : Int) (q : QueueItem) : QueueItem :=
  if q.Status = "in_progress" ∧ IsTimerExpired q now = true then
    { q with Status := "completed", CompletedAt := some now }
  else q

/-- One iteration body of the background worker loop of
`src/unnamed/part_003` lines 75-96, applied to a single item: after the
status transition, the item is dropped exactly when `ShouldAutoRemove`
holds. -/
def sweepItem (now : Int) (q : QueueItem) : Option QueueItem :=
  if (sweepUpdate now q).ShouldAutoRemove now then none
  else some (sweepUpdate now q)

/-- backgroundSweep is one full pass of the background worker over the items
slice, rebuilding it in order. -/
def backgroundSweep (items : List QueueItem) (now : Int) : List QueueItem :=
  items.filterMap (sweepItem now)

/-- mkWaiting is the item literal built by `AddToQueue`. -/
def mkWaiting (name : String) (numLoads now : Int) : QueueItem :=
  ⟨makeID now name, name, "waiting", none, 0, numLoads, none, now⟩

/-- AddToQueue from `src/unnamed/part_003` lines 98-112: appends a fresh
waiting item and returns it together with the new state. -/
def AddToQueue (items : List QueueItem) (name : String) (numLoads now : Int) :
    QueueItem × List QueueItem :=
  let item := mkWaiting name numLoads now
  (item, items ++ [item])

/-- Field assignment performed by StartTimer on the matched item: start is
stamped `now`, the duration is stored, and the status becomes in-progress. -/
def startUpdate (q : QueueItem) (d now : Int) : QueueItem :=
  { q with StartTime := some now, Duration := d, Status := "in_progress" }

/-- StartTimer from `src/unnamed/part_003` lines 114-129: walks the slice,
and on the first item whose id matches and whose status is waiting, sets the
start instant, duration and in-progress status, returning true; returns false
with the state untouched when no such item exists. -/
def StartTimer : List QueueItem → String → Int → Int → Bool × List QueueItem
  | [], _, _, _ => (false, [])
  | q :: rest, id, d, now =>
    if q.ID = id ∧ q.Status = "waiting" then
      (true, startUpdate q d now :: rest)
    else
      let r := StartTimer rest id d now
      (r.1, q :: r.2)

/-- mkStarted is the item literal built by `AddAndStart`. -/
def mkStarted (name : String) (d numLoads now : Int) : QueueItem :=
  ⟨makeID now name, name, "in_progress", some now, d, numLoads, none, now⟩

/-- AddAndStart from `src/unnamed/part_003` lines 131-148: appends a fresh
in-progress item started at `now` and returns it with the new state. -/
def AddAndStart (items : List QueueItem) (name : String)
    (d numLoads now : Int) : QueueItem × List QueueItem :=
  let item := mkStarted name d numLoads now
  (item, items ++ [item])

/-- GetAll from `src/unnamed/part_003` lines 150-158: returns a copy of the
slice; the state is not touched, so the model returns the result together
with the unchanged state. -/
def GetAll (items : List QueueItem) : List QueueItem × List QueueItem :=
  (items, items)

/-- HasActiveLoad from `src/unnamed/part_003` lines 160-171. -/
def HasActiveLoad (items : List QueueItem) (now : Int) : Bool :=
  items.any (fun q => q.Status = "in_progress" ∧ IsTimerExpired q now = false)

/-- HasQueueItems from `src/unnamed/part_003` lines 173-184. -/
def HasQueueItems (items : List QueueItem) (now : Int) : Bool :=
  items.any (fun q =>
    q.Status = "waiting" ∨
      (q.Status = "in_progress" ∧ IsTimerExpired q now = false))

/-- Loop of GetQueuePosition with the running count of waiting items already
passed. -/
def getQueuePositionAux : List QueueItem → String → Int → Int
  | [], _, _ => -1
  | q :: rest, id, pos =>
    if q.Status = "waiting" then
      if q.ID = id then pos + 1
      else getQueuePositionAux rest id (pos + 1)
    else getQueuePositionAux rest id pos

/-- GetQueuePosition from `src/unnamed/part_003` lines 186-201: 1-based rank
of the item among waiting items in insertion order, or -1. -/
def GetQueuePosition (items : List QueueItem) (id : String) : Int :=
  getQueuePositionAux items id 0

/-- Remove from `src/unnamed/part_003` lines 203-215: deletes the first item
with the given id regardless of status; false when absent. -/
def Remove : List QueueItem → String → Bool × List QueueItem
  | [], _ => (false, [])
  | q :: rest, id =>
    if q.ID = id then (true, rest)
    else
      let r := Remove rest id
      (r.1, q :: r.2)

end P3

namespace Sched

/-- GetEndTime from `src/models/schedule.go`: nil unless the start time is
set and the duration nonzero. -/
def GetEndTime (q : QueueItem) : Option Int :=
  match q.StartTime with
  | none => none
  | some s => if q.Duration = 0 then none else some (s + 60 * q.Duration)

/-- IsTimerExpired from `src/models/schedule.go`: an in-progress item with a
computable end time is expired exactly when `now` is strictly after that end
time. -/
def IsTimerExpired (q : QueueItem) (now : Int) : Bool :=
  if q.Status ≠ "in_progress" ∨ q.StartTime = none then false
  else match GetEndTime q with
    | none => false
    | some e => decide (now > e)

/-- GetRemainingMinutes from `src/models/schedule.go`: remaining time until
the end time truncated to whole minutes, clamped below at zero. -/
def GetRemainingMinutes (q : QueueItem) (now : Int) : Int :=
  if q.Status ≠ "in_progress" then 0
  else match q.StartTime with
    | none => 0
    | some _ =>
      match GetEndTime q with
      | none => 0
      | some e =>
        let remaining : Int := e - now
        if remaining < 0 then 0 else ((remaining.toNat / 60 : Nat) : Int)

/-- Status transition performed by the `schedule.go` background worker on a
single item. -/
def sweepUpdate (now : Int) (q : QueueItem) : QueueItem :=
  if q.Status = "in_progress" ∧ IsTimerExpired q now = true then
    { q with Status := "completed", CompletedAt := some now }
  else q

/-- One iteration body of the background worker loop of
`src/models/schedule.go`, applied to a single item. -/
def sweepItem (now : Int) (q : QueueItem) : Option QueueItem :=
  if (sweepUpdate now q).ShouldAutoRemove now then none
  else some (sweepUpdate now q)

/-- backgroundSweep is one full pass of the `schedule.go` background worker
over the items slice. -/
def backgroundSweep (items : List QueueItem) (now : Int) : List QueueItem :=
  items.filterMap (sweepItem now)

/-- Status-and-stamp update performed on each item by the first loop of
`schedule.go`'s GetAll: an expired in-progress item becomes completed, and
the completion stamp is set to `now` only when it was nil. -/
def getAllUpdate (now : Int) (q : QueueItem) : QueueItem :=
  if q.Status = "in_progress" ∧ IsTimerExpired q now = true then
    { q with Status := "completed",
             CompletedAt := match q.CompletedAt with
                            | none => some now
                            | some c => some c }
  else q

/-- GetAll from `src/models/schedule.go` lines 240-269: under the write lock
it first rewrites expired in-progress items to completed, then drops items
for which `ShouldAutoRemove` holds, stores the rebuilt slice back, and
returns a copy of it. The model returns (new state, returned slice); the two
components are equal. -/
def GetAllM (items : List QueueItem) (now : Int) :
    List QueueItem × List QueueItem :=
  let updated := items.map (getAllUpdate now)
  let kept := updated.filter (fun q => !q.ShouldAutoRemove now)
  (kept, kept)

end Sched

/-- inProg30 is a reservation that started its 30-minute timer at instant 0
and has not been completed. -/
def inProg30 : QueueItem := ⟨"a", "n", "in_progress", some 0, 30, 1, none, 0⟩

/-- doneAt0 is a reservation completed at instant 0. -/
def doneAt0 : QueueItem := ⟨"b", "m", "completed", some 0, 30, 1, some 0, 0⟩

example : P3.GetRemainingMinutes
    ⟨"a", "n", "in_progress", some 0, 30, 1, none, 0⟩ 0 = 30 := by decide

example : P3.GetRemainingMinutes
    ⟨"a", "n", "in_progress", some 0, 30, 1, none, 0⟩ 1770 = 0 := by decide

example : Sched.IsTimerExpired
    ⟨"a", "n", "in_progress", some 0, 30, 1, none, 0⟩ 1770 = false := by decide

example : P3.IsTimerExpired
    ⟨"a", "n", "in_progress", some 0, 30, 1, none, 0⟩ 1770 = true := by decide

/-- C1: the spec mandates that the list-all query be pure (sweep-only expiry,
read-is-pure policy), but `schedule.go`'s GetAll is the dual-mutation
variant: evaluated on a store holding an expired in-progress reservation and
a stale completed one, the "read" rewrites the first item's Status to
completed, stamps its CompletedAt with the read instant, and evicts the
second item from the stored state. -/
theorem c1_sched_getAll_mutates_on_read :
    (Sched.GetAllM [inProg30, doneAt0] 1801).1.map
        (fun q => (q.ID, q.Status, q.CompletedAt)) =
      [("a", "completed", some 1801)] ∧
    inProg30.Status = "in_progress" ∧ inProg30.CompletedAt = none ∧
    doneAt0 ∈ [inProg30, doneAt0] := by decide

/-- C2 counterexample: the part_003 reservation with duration 30 started at
instant 0, observed at second 1770 (29.5 minutes in, strictly before the
deadline 1800), already reports 0 remaining minutes and an expired timer,
refuting "reaches 0 only at T+30" and "IsTimerExpired becomes true only at
or after T+30". -/
theorem c2_counterexample :
    P3.GetRemainingMinutes inProg30 1770 = 0 ∧
    P3.IsTimerExpired inProg30 1770 = true ∧
    (1770 : Int) < 0 + 60 * 30 := by decide

/-- C3: identifiers are the second-resolution timestamp joined to the name,
so two Enqueue calls in the same clock second with the same name produce two
records with identical ids: the store then holds 2 records whose id list is
not duplicate-free, contradicting the required uniqueness within one clock
tick. -/
theorem c3_same_tick_id_collision :
    (P3.AddToQueue (P3.AddToQueue [] "alice" 1 100).2 "alice" 1 100).2.length
        = 2 ∧
    ¬ ((P3.AddToQueue (P3.AddToQueue [] "alice" 1 100).2 "alice" 1
          100).2.map QueueItem.ID).Nodup := by decide

/-- C6 counterexample: one part_003 sweep pass at second 1770 transitions the
duration-30 reservation started at 0 to completed and stamps
CompletedAt = 1770, which is strictly below the expiry deadline 1800,
refuting "completedAt ≥ expiry deadline". -/
theorem c6_counterexample :
    (P3.backgroundSweep [inProg30] 1770).map
        (fun q => (q.Status, q.CompletedAt)) = [("completed", some 1770)] ∧
    (1770 : Int) < 0 + 60 * 30 := by decide

/-- C10 counterexample: on the same reservation (in-progress, started at 0,
duration 30) evaluated at the same instant 1770 — inside the final minute
before the deadline 1800 — the part_003 IsTimerExpired returns true while
the schedule.go IsTimerExpired returns false, refuting the claimed
agreement. -/
theorem c10_counterexample :
    P3.IsTimerExpired inProg30 1770 = true ∧
    Sched.IsTimerExpired inProg30 1770 = false := by decide

/-- Value of the part_003 remaining-minutes computation in the in-progress,
started, nonzero-duration case. -/
theorem P3.getRemainingMinutes_eq (q : QueueItem) (s now : Int)
    (hstat : q.Status = "in_progress") (hst : q.StartTime = some s)
    (hd : q.Duration ≠ 0) :
    P3.GetRemainingMinutes q now =
      if s + 60 * q.Duration - now < 0 then 0
      else (((s + 60 * q.Duration - now).toNat / 60 : Nat) : Int) := by
  unfold P3.GetRemainingMinutes
  rw [hst]
  simp [hstat, hd]

/-- The part_003 remaining-minutes computation is never negative. -/
theorem P3.getRemainingMinutes_nonneg (q : QueueItem) (now : Int) :
    0 ≤ P3.GetRemainingMinutes q now := by
  unfold P3.GetRemainingMinutes
  by_cases hstat : q.Status = "in_progress"
  · simp only [hstat, ne_eq, not_true_eq_false, if_false]
    rcases q.StartTime with _ | s
    · simp
    · by_cases hd : q.Duration = 0
      · simp [hd]
      · simp only [hd, if_false]
        split_ifs
        · omega
        · exact Int.natCast_nonneg _
  · simp [hstat]

/-- Characterization of the part_003 expiry test: it reports expired unless
the item is in progress with a start time and nonzero duration and at least
60 seconds remain before the deadline. -/
theorem P3.isTimerExpired_iff (q : QueueItem) (now : Int) :
    P3.IsTimerExpired q now = true ↔
      ¬ (q.Status = "in_progress" ∧ ∃ s, q.StartTime = some s ∧
          q.Duration ≠ 0 ∧ 60 ≤ s + 60 * q.Duration - now) := by
  unfold P3.IsTimerExpired
  simp only [decide_eq_true_eq]
  by_cases hstat : q.Status = "in_progress"
  · rcases hst : q.StartTime with _ | s
    · simp [P3.GetRemainingMinutes, hstat, hst]
    · by_cases hd : q.Duration = 0
      · simp [P3.GetRemainingMinutes, hstat, hst, hd]
      · rw [P3.getRemainingMinutes_eq q s now hstat hst hd]
        simp only [hstat, hst, true_and, Option.some.injEq, ne_eq, hd,
          not_false_eq_true]
        constructor
        · intro h
          rintro ⟨s', rfl, hrem⟩
          split_ifs at h with hneg
          · omega
          · omega
        · intro h
          push_neg at h
          have h2 := h s rfl
          split_ifs with hneg
          · omega
          · omega
  · simp [P3.GetRemainingMinutes, hstat]

/-- Characterization of the schedule.go expiry test: expired exactly for an
in-progress item with a start time and nonzero duration whose deadline lies
strictly before `now`. -/
theorem Sched.isTimerExpired_deadline_iff (q : QueueItem) (now : Int) :
    Sched.IsTimerExpired q now = true ↔
      q.Status = "in_progress" ∧ ∃ s, q.StartTime = some s ∧
        q.Duration ≠ 0 ∧ s + 60 * q.Duration < now := by
  unfold Sched.IsTimerExpired Sched.GetEndTime
  rcases hst : q.StartTime with _ | s
  · simp [hst]
  · by_cases hstat : q.Status = "in_progress"
    · by_cases hd : q.Duration = 0 <;> simp [hstat, hst, hd]
    · simp [hstat]

/-- C2 (amended): for an in-progress reservation started at `s` with positive
duration, the part_003 remaining-minutes value is the full duration at the
start instant, is at least 1 while at least 60 seconds remain, but — because
the Go code truncates `int(remaining.Minutes())` — it reaches 0 exactly when
fewer than 60 seconds remain, i.e. already during the final minute strictly
before the deadline; part_003's IsTimerExpired therefore also becomes true
during that final minute, while schedule.go's IsTimerExpired becomes true
only strictly after the deadline `s + duration`. -/
theorem c2_truncated_remaining (q : QueueItem) (s now : Int)
    (hstat : q.Status = "in_progress") (hst : q.StartTime = some s)
    (hd : 1 ≤ q.Duration) :
    P3.GetRemainingMinutes q s = q.Duration ∧
    (60 ≤ s + 60 * q.Duration - now → 1 ≤ P3.GetRemainingMinutes q now) ∧
    (P3.GetRemainingMinutes q now = 0 ↔ s + 60 * q.Duration - now < 60) ∧
    (P3.IsTimerExpired q now = true ↔ s + 60 * q.Duration - now < 60) ∧
    (Sched.IsTimerExpired q now = true ↔ s + 60 * q.Duration < now) := by
  have hd0 : q.Duration ≠ 0 := by omega
  refine ⟨?_, ?_, ?_, ?_, ?_⟩
  · rw [P3.getRemainingMinutes_eq q s s hstat hst hd0]
    split_ifs with h <;> omega
  · intro h60
    rw [P3.getRemainingMinutes_eq q s now hstat hst hd0]
    split_ifs with h <;> omega
  · rw [P3.getRemainingMinutes_eq q s now hstat hst hd0]
    split_ifs with h <;> omega
  · rw [P3.isTimerExpired_iff]
    simp only [hstat, hst, true_and, Option.some.injEq, ne_eq, hd0,
      not_false_eq_true, exists_eq_left']
    omega
  · rw [Sched.isTimerExpired_deadline_iff]
    simp only [hstat, hst, true_and, Option.some.injEq, ne_eq, hd0,
      not_false_eq_true, exists_eq_left']

theorem c2_truncated_remaining_witness :
    P3.GetRemainingMinutes inProg30 0 = inProg30.Duration ∧
    (P3.GetRemainingMinutes inProg30 1770 = 0 ↔
      0 + 60 * inProg30.Duration - 1770 < 60) :=
  ⟨(c2_truncated_remaining inProg30 0 1770 rfl rfl (by decide)).1,
   (c2_truncated_remaining inProg30 0 1770 rfl rfl (by decide)).2.2.1⟩

/-- C10 (amended): schedule.go expiry implies part_003 expiry, and for an
in-progress reservation with a start time and positive duration the two
agree exactly outside the window from 60 seconds before the deadline
(exclusive) up to the deadline (inclusive); they disagree — part_003 true,
schedule.go false — inside that final-minute window, for an in-progress
reservation with duration 0, and for any reservation that is not in
progress. -/
theorem c10_expiry_refinement :
    (∀ (q : QueueItem) (now : Int),
        Sched.IsTimerExpired q now = true → P3.IsTimerExpired q now = true) ∧
    (∀ (q : QueueItem) (s now : Int), q.Status = "in_progress" →
        q.StartTime = some s → 1 ≤ q.Duration →
        (P3.IsTimerExpired q now = Sched.IsTimerExpired q now ↔
          ¬ (s + 60 * q.Duration - 60 < now ∧ now ≤ s + 60 * q.Duration))) ∧
    (∀ (q : QueueItem) (s now : Int), q.Status = "in_progress" →
        q.StartTime = some s → q.Duration = 0 →
        P3.IsTimerExpired q now = true ∧ Sched.IsTimerExpired q now = false) ∧
    (∀ (q : QueueItem) (now : Int), q.Status ≠ "in_progress" →
        P3.IsTimerExpired q now = true ∧ Sched.IsTimerExpired q now = false) := by
  refine ⟨?_, ?_, ?_, ?_⟩
  · intro q now h
    rw [Sched.isTimerExpired_deadline_iff] at h
    rcases h with ⟨hstat, s, hst, hd, hlt⟩
    rw [P3.isTimerExpired_iff]
    rintro ⟨-, s', hs', -, hrem⟩
    rw [hst] at hs'
    injection hs' with hss
    omega
  · intro q s now hstat hst hd
    have hd0 : q.Duration ≠ 0 := by omega
    have hP := P3.isTimerExpired_iff q now
    have hS := Sched.isTimerExpired_deadline_iff q now
    simp only [hstat, hst, true_and, Option.some.injEq, ne_eq, hd0,
      not_false_eq_true, exists_eq_left'] at hP hS
    rw [Bool.eq_iff_iff, hP, hS]
    omega
  · intro q s now hstat hst hdz
    constructor
    · rw [P3.isTimerExpired_iff]
      rintro ⟨-, s', -, hd', -⟩
      exact hd' hdz
    · cases hb : Sched.IsTimerExpired q now
      · rfl
      · exfalso
        rcases (Sched.isTimerExpired_deadline_iff q now).1 hb with ⟨-, s', -, hd', -⟩
        exact hd' hdz
  · intro q now hstat
    constructor
    · rw [P3.isTimerExpired_iff]
      rintro ⟨h1, -⟩
      exact hstat h1
    · cases hb : Sched.IsTimerExpired q now
      · rfl
      · exfalso
        rcases (Sched.isTimerExpired_deadline_iff q now).1 hb with ⟨h1, -⟩
        exact hstat h1

theorem c10_expiry_refinement_witness :
    P3.IsTimerExpired inProg30 1770 = Sched.IsTimerExpired inProg30 1770 ↔
      ¬ ((0 : Int) + 60 * inProg30.Duration - 60 < 1770 ∧
          (1770 : Int) ≤ 0 + 60 * inProg30.Duration) :=
  c10_expiry_refinement.2.1 inProg30 0 1770 rfl rfl (by decide)

/-- A record just stamped completed at `now` is not auto-removed at `now`:
the grace period has not elapsed. -/
theorem shouldAutoRemove_fresh_stamp (q : QueueItem) (now : Int) :
    QueueItem.ShouldAutoRemove
      { q with Status := "completed", CompletedAt := some now } now = false := by
  unfold QueueItem.ShouldAutoRemove
  rw [if_pos rfl]
  show decide (now - now > 300) = false
  simp only [decide_eq_false_iff_not]
  omega

/-- C6 (amended): when a sweep pass transitions an expired in-progress
reservation it stamps CompletedAt with the sweep instant `now`; for the
part_003 sweep that instant is only guaranteed to be strictly later than
deadline − 60 s (it can precede the deadline, since part_003 expiry fires as
soon as the truncated remaining minutes reach 0), while for the schedule.go
sweep it is strictly later than the deadline. In both sweeps the transition
happens exactly once: a pass never restamps or demotes an already-completed
record — it either keeps it exactly as it is or (after the grace period)
evicts it. -/
theorem c6_sweep_stamp (q : QueueItem) (s now : Int) :
    (q.Status = "in_progress" → q.StartTime = some s → 1 ≤ q.Duration →
      P3.IsTimerExpired q now = true →
      P3.sweepItem now q =
          some { q with Status := "completed", CompletedAt := some now } ∧
        s + 60 * q.Duration - 60 < now) ∧
    (q.Status = "in_progress" → q.StartTime = some s → q.Duration ≠ 0 →
      Sched.IsTimerExpired q now = true →
      Sched.sweepItem now q =
          some { q with Status := "completed", CompletedAt := some now } ∧
        s + 60 * q.Duration < now) ∧
    (q.Status = "completed" →
      P3.sweepItem now q = some q ∨ P3.sweepItem now q = none) ∧
    (q.Status = "completed" →
      Sched.sweepItem now q = some q ∨ Sched.sweepItem now q = none) := by
  refine ⟨?_, ?_, ?_, ?_⟩
  · intro hstat hst hd hexp
    have hd0 : q.Duration ≠ 0 := by omega
    have hup : P3.sweepUpdate now q =
        { q with Status := "completed", CompletedAt := some now } :=
      if_pos ⟨hstat, hexp⟩
    constructor
    · unfold P3.sweepItem
      rw [hup, shouldAutoRemove_fresh_stamp, if_neg (by simp)]
    · have hP := (P3.isTimerExpired_iff q now).1 hexp
      simp only [hstat, hst, true_and, Option.some.injEq, ne_eq, hd0,
        not_false_eq_true, exists_eq_left'] at hP
      omega
  · intro hstat hst hd0 hexp
    have hup : Sched.sweepUpdate now q =
        { q with Status := "completed", CompletedAt := some now } :=
      if_pos ⟨hstat, hexp⟩
    constructor
    · unfold Sched.sweepItem
      rw [hup, shouldAutoRemove_fresh_stamp, if_neg (by simp)]
    · have hS := (Sched.isTimerExpired_deadline_iff q now).1 hexp
      simp only [hstat, hst, true_and, Option.some.injEq, ne_eq, hd0,
        not_false_eq_true, exists_eq_left'] at hS
      exact hS
  · intro hdone
    have hup : P3.sweepUpdate now q = q :=
      if_neg (by rw [hdone]; rintro ⟨h1, -⟩; exact absurd h1 (by decide))
    unfold P3.sweepItem
    rw [hup]
    split_ifs with h
    · exact Or.inr rfl
    · exact Or.inl rfl
  · intro hdone
    have hup : Sched.sweepUpdate now q = q :=
      if_neg (by rw [hdone]; rintro ⟨h1, -⟩; exact absurd h1 (by decide))
    unfold Sched.sweepItem
    rw [hup]
    split_ifs with h
    · exact Or.inr rfl
    · exact Or.inl rfl

theorem c6_sweep_stamp_witness :
    P3.sweepItem 1770 inProg30 =
        some { inProg30 with Status := "completed",
                             CompletedAt := some 1770 } ∧
      (0 : Int) + 60 * inProg30.Duration - 60 < 1770 :=
  (c6_sweep_stamp inProg30 0 1770).1 rfl rfl (by decide) (by decide)

/-- An item whose status is not the completed literal is never auto-removed. -/
theorem QueueItem.shouldAutoRemove_of_status_ne (q : QueueItem) (now : Int)
    (h : q.Status ≠ "completed") : q.ShouldAutoRemove now = false := by
  unfold QueueItem.ShouldAutoRemove
  rw [if_neg h]

/-- Auto-removal of a stamped completed item is exactly the grace-period
test. -/
theorem QueueItem.shouldAutoRemove_completed (q : QueueItem) (now c : Int)
    (hs : q.Status = "completed") (hc : q.CompletedAt = some c) :
    q.ShouldAutoRemove now = decide (now - c > 300) := by
  unfold QueueItem.ShouldAutoRemove
  rw [if_pos hs, hc]

/-- The part_003 sweep leaves an item alone when the expiry transition does
not apply to it. -/
theorem P3.sweepUpdate_of_not (q : QueueItem) (now : Int)
    (h : ¬ (q.Status = "in_progress" ∧ P3.IsTimerExpired q now = true)) :
    P3.sweepUpdate now q = q := if_neg h

/-- An item untouched by the transition and not auto-removable survives the
part_003 sweep unchanged. -/
theorem P3.sweepItem_keep (q : QueueItem) (now : Int)
    (hup : P3.sweepUpdate now q = q)
    (hsar : q.ShouldAutoRemove now = false) :
    P3.sweepItem now q = some q := by
  unfold P3.sweepItem
  rw [hup, hsar]
  simp

/-- C5: a single part_003 sweep pass keeps every waiting item and every
in-progress item whose timer has not expired, and it drops a completed item
with completion stamp `c` exactly when `now - c` exceeds the 5-minute grace
period — a completed item still inside the grace period survives. -/
theorem c5_sweep_safety (items : List QueueItem) (now : Int) (q : QueueItem)
    (hmem : q ∈ items) :
    (q.Status = "waiting" → q ∈ P3.backgroundSweep items now) ∧
    (q.Status = "in_progress" → P3.IsTimerExpired q now = false →
      q ∈ P3.backgroundSweep items now) ∧
    (∀ c, q.Status = "completed" → q.CompletedAt = some c →
      ((P3.sweepItem now q = none ↔ 300 < now - c) ∧
        (now - c ≤ 300 → q ∈ P3.backgroundSweep items now))) := by
  have hkeep : P3.sweepItem now q = some q → q ∈ P3.backgroundSweep items now :=
    fun h => List.mem_filterMap.2 ⟨q, hmem, h⟩
  refine ⟨?_, ?_, ?_⟩
  · intro hw
    refine hkeep (P3.sweepItem_keep q now ?_ ?_)
    · exact P3.sweepUpdate_of_not q now
        (by rintro ⟨h1, -⟩; rw [hw] at h1; exact absurd h1 (by decide))
    · exact QueueItem.shouldAutoRemove_of_status_ne q now (by rw [hw]; decide)
  · intro hip hnexp
    refine hkeep (P3.sweepItem_keep q now ?_ ?_)
    · exact P3.sweepUpdate_of_not q now
        (by rintro ⟨-, h2⟩; rw [hnexp] at h2; cases h2)
    · exact QueueItem.shouldAutoRemove_of_status_ne q now (by rw [hip]; decide)
  · intro c hdone hc
    have hup : P3.sweepUpdate now q = q :=
      P3.sweepUpdate_of_not q now
        (by rintro ⟨h1, -⟩; rw [hdone] at h1; exact absurd h1 (by decide))
    have hsar := QueueItem.shouldAutoRemove_completed q now c hdone hc
    constructor
    · unfold P3.sweepItem
      rw [hup, hsar]
      constructor
      · intro h
        by_cases hgt : now - c > 300
        · exact hgt
        · exfalso
          rw [if_neg (by simp [hgt])] at h
          cases h
      · intro hgt
        rw [if_pos (by simp [hgt])]
    · intro hle
      refine hkeep (P3.sweepItem_keep q now hup ?_)
      rw [hsar]
      simp only [decide_eq_false_iff_not]
      omega

theorem c5_sweep_safety_witness :
    doneAt0 ∈ P3.backgroundSweep [doneAt0] 200 :=
  ((c5_sweep_safety [doneAt0] 200 doneAt0 (by decide)).2.2 0 rfl rfl).2
    (by decide)

/-- StartTimer returns false and rebuilds the state unchanged when no item
carries the requested id. -/
theorem P3.startTimer_absent :
    ∀ (items : List QueueItem) (id : String) (d now : Int),
      (∀ q ∈ items, q.ID ≠ id) →
      P3.StartTimer items id d now = (false, items) := by
  intro items
  induction items with
  | nil => intro id d now _; rfl
  | cons q rest ih =>
    intro id d now h
    have hne : ¬ (q.ID = id ∧ q.Status = "waiting") :=
      fun hcon => h q (List.mem_cons_self _ _) hcon.1
    simp only [P3.StartTimer, if_neg hne]
    rw [ih id d now (fun p hp => h p (List.mem_cons_of_mem _ hp))]

/-- Remove returns false and rebuilds the state unchanged when no item
carries the requested id. -/
theorem P3.remove_absent :
    ∀ (items : List QueueItem) (id : String),
      (∀ q ∈ items, q.ID ≠ id) →
      P3.Remove items id = (false, items) := by
  intro items
  induction items with
  | nil => intro id _; rfl
  | cons q rest ih =>
    intro id h
    have hne : q.ID ≠ id := h q (List.mem_cons_self _ _)
    simp only [P3.Remove, if_neg hne]
    rw [ih id (fun p hp => h p (List.mem_cons_of_mem _ hp))]

/-- The position loop returns -1 whatever the running count when no item
carries the requested id. -/
theorem P3.getQueuePositionAux_absent :
    ∀ (items : List QueueItem) (id : String) (pos : Int),
      (∀ q ∈ items, q.ID ≠ id) →
      P3.getQueuePositionAux items id pos = -1 := by
  intro items
  induction items with
  | nil => intro id pos _; rfl
  | cons q rest ih =>
    intro id pos h
    have hne : q.ID ≠ id := h q (List.mem_cons_self _ _)
    have hrest := fun p hp => h p (List.mem_cons_of_mem _ hp)
    by_cases hw : q.Status = "waiting"
    · simp only [P3.getQueuePositionAux, if_pos hw, if_neg hne]
      exact ih id (pos + 1) hrest
    · simp only [P3.getQueuePositionAux, if_neg hw]
      exact ih id pos hrest

/-- C7: for an id carried by no reservation, StartTimer and Remove return
false and GetQueuePosition returns -1, and in each case the collection is
left exactly as it was. -/
theorem c7_absent_id (items : List QueueItem) (id : String) (d now : Int)
    (habs : ∀ q ∈ items, q.ID ≠ id) :
    P3.StartTimer items id d now = (false, items) ∧
    P3.Remove items id = (false, items) ∧
    P3.GetQueuePosition items id = -1 :=
  ⟨P3.startTimer_absent items id d now habs,
   P3.remove_absent items id habs,
   P3.getQueuePositionAux_absent items id 0 habs⟩

theorem c7_absent_id_witness :
    P3.StartTimer [inProg30] "zzz" 5 7 = (false, [inProg30]) ∧
    P3.Remove [inProg30] "zzz" = (false, [inProg30]) ∧
    P3.GetQueuePosition [inProg30] "zzz" = -1 :=
  c7_absent_id [inProg30] "zzz" 5 7 (by decide)

/-- StartTimer succeeds exactly when some item carries the id with waiting
status. -/
theorem P3.startTimer_fst_true_iff :
    ∀ (items : List QueueItem) (id : String) (d now : Int),
      (P3.StartTimer items id d now).1 = true ↔
        ∃ q ∈ items, q.ID = id ∧ q.Status = "waiting" := by
  intro items
  induction items with
  | nil => intro id d now; simp [P3.StartTimer]
  | cons q rest ih =>
    intro id d now
    by_cases hc : q.ID = id ∧ q.Status = "waiting"
    · simp only [P3.StartTimer, if_pos hc]
      exact iff_of_true trivial ⟨q, List.mem_cons_self _ _, hc⟩
    · simp only [P3.StartTimer, if_neg hc]
      rw [ih id d now]
      constructor
      · rintro ⟨p, hp, hpid⟩
        exact ⟨p, List.mem_cons_of_mem _ hp, hpid⟩
      · rintro ⟨p, hp, hpid⟩
        rcases List.mem_cons.1 hp with rfl | hp'
        · exact absurd hpid hc
        · exact ⟨p, hp', hpid⟩

/-- A failed StartTimer rebuilds the collection unchanged. -/
theorem P3.startTimer_fst_false :
    ∀ (items : List QueueItem) (id : String) (d now : Int),
      (P3.StartTimer items id d now).1 = false →
      (P3.StartTimer items id d now).2 = items := by
  intro items
  induction items with
  | nil => intro id d now _; rfl
  | cons q rest ih =>
    intro id d now h
    by_cases hc : q.ID = id ∧ q.Status = "waiting"
    · rw [show (P3.StartTimer (q :: rest) id d now).1 = true from
          by simp only [P3.StartTimer, if_pos hc]] at h
      cases h
    · simp only [P3.StartTimer, if_neg hc] at h ⊢
      rw [ih id d now h]

/-- A successful StartTimer splits the collection around the first waiting
item with the id and updates exactly that item in place. -/
theorem P3.startTimer_success :
    ∀ (items : List QueueItem) (id : String) (d now : Int),
      (P3.StartTimer items id d now).1 = true →
      ∃ pre p post, items = pre ++ p :: post ∧
        (∀ x ∈ pre, ¬ (x.ID = id ∧ x.Status = "waiting")) ∧
        p.ID = id ∧ p.Status = "waiting" ∧
        (P3.StartTimer items id d now).2 =
          pre ++ P3.startUpdate p d now :: post := by
  intro items
  induction items with
  | nil => intro id d now h; cases h
  | cons q rest ih =>
    intro id d now h
    by_cases hc : q.ID = id ∧ q.Status = "waiting"
    · refine ⟨[], q, rest, rfl, by simp, hc.1, hc.2, ?_⟩
      simp only [P3.StartTimer, if_pos hc, List.nil_append]
    · have h' : (P3.StartTimer rest id d now).1 = true := by
        simpa only [P3.StartTimer, if_neg hc] using h
      rcases ih id d now h' with ⟨pre, p, post, heq, hpre, hpid, hpw, hsnd⟩
      refine ⟨q :: pre, p, post, by rw [heq, List.cons_append], ?_, hpid, hpw,
        ?_⟩
      · intro x hx
        rcases List.mem_cons.1 hx with rfl | hx'
        · exact hc
        · exact hpre x hx'
      · simp only [P3.StartTimer, if_neg hc]
        rw [hsnd, List.cons_append]

/-- With duplicate-free ids, a second StartTimer on the same id always
fails. -/
theorem P3.startTimer_twice :
    ∀ (items : List QueueItem) (id : String) (d now d' now' : Int),
      (items.map QueueItem.ID).Nodup →
      (P3.StartTimer (P3.StartTimer items id d now).2 id d' now').1 =
        false := by
  intro items
  induction items with
  | nil => intro id d now d' now' _; rfl
  | cons q rest ih =>
    intro id d now d' now' hnd
    have hnd1 : q.ID ∉ rest.map QueueItem.ID := (List.nodup_cons.1 hnd).1
    have hnd2 : (rest.map QueueItem.ID).Nodup := (List.nodup_cons.1 hnd).2
    by_cases hc : q.ID = id ∧ q.Status = "waiting"
    · have habs : ∀ p ∈ rest, p.ID ≠ id := by
        intro p hp hpid
        apply hnd1
        rw [hc.1, ← hpid]
        exact List.mem_map_of_mem _ hp
      have hupd : (P3.StartTimer (q :: rest) id d now).2 =
          P3.startUpdate q d now :: rest := by
        simp only [P3.StartTimer, if_pos hc]
      rw [hupd]
      have hne : ¬ ((P3.startUpdate q d now).ID = id ∧
          (P3.startUpdate q d now).Status = "waiting") := by
        rintro ⟨-, h2⟩
        exact absurd h2 (by simp [P3.startUpdate])
      simp only [P3.StartTimer, if_neg hne]
      rw [P3.startTimer_absent rest id d' now' habs]
    · have hswap : (P3.StartTimer (q :: rest) id d now).2 =
          q :: (P3.StartTimer rest id d now).2 := by
        simp only [P3.StartTimer, if_neg hc]
      rw [hswap]
      have h2 := ih id d now d' now' hnd2
      simp only [P3.StartTimer, if_neg hc]
      exact h2

/-- C4: StartTimer returns true iff the collection holds a waiting item with
the id; on failure it leaves the collection unchanged; on success it updates
the first such item in place — setting start to `now`, the duration, and the
in-progress status — leaving everything else untouched; and, the ids being
duplicate-free, a second StartTimer on the same id returns false. -/
theorem c4_startTimer_contract (items : List QueueItem) (id : String)
    (d now : Int) :
    ((P3.StartTimer items id d now).1 = true ↔
      ∃ q ∈ items, q.ID = id ∧ q.Status = "waiting") ∧
    ((P3.StartTimer items id d now).1 = false →
      (P3.StartTimer items id d now).2 = items) ∧
    ((P3.StartTimer items id d now).1 = true →
      ∃ pre p post, items = pre ++ p :: post ∧
        (∀ x ∈ pre, ¬ (x.ID = id ∧ x.Status = "waiting")) ∧
        p.ID = id ∧ p.Status = "waiting" ∧
        (P3.StartTimer items id d now).2 =
          pre ++ P3.startUpdate p d now :: post) ∧
    (∀ (d' now' : Int), (items.map QueueItem.ID).Nodup →
      (P3.StartTimer (P3.StartTimer items id d now).2 id d' now').1 =
        false) :=
  ⟨P3.startTimer_fst_true_iff items id d now,
   P3.startTimer_fst_false items id d now,
   P3.startTimer_success items id d now,
   fun d' now' h => P3.startTimer_twice items id d now d' now' h⟩

theorem c4_startTimer_contract_witness :
    (P3.StartTimer (P3.StartTimer [P3.mkWaiting "bob" 1 50] "50-bob" 30
        60).2 "50-bob" 25 70).1 = false :=
  (c4_startTimer_contract [P3.mkWaiting "bob" 1 50] "50-bob" 30 60).2.2.2 25
    70 (by decide)

/-- The position loop computes the 1-based index (offset by the running
count) of the first waiting item carrying the id, within the waiting items
in insertion order. -/
theorem P3.getQueuePositionAux_rank :
    ∀ (items : List QueueItem) (id : String) (pos : Int),
      P3.getQueuePositionAux items id pos =
        match (items.filter
            (fun x => decide (x.Status = "waiting"))).findIdx?
            (fun x => decide (x.ID = id)) with
        | some k => pos + (k : Int) + 1
        | none => -1 := by
  intro items
  induction items with
  | nil =>
    intro id pos
    simp [P3.getQueuePositionAux, List.findIdx?_nil]
  | cons q rest ih =>
    intro id pos
    by_cases hw : q.Status = "waiting"
    · have hfq : (q :: rest).filter (fun x => decide (x.Status = "waiting")) =
          q :: rest.filter (fun x => decide (x.Status = "waiting")) :=
        List.filter_cons_of_pos (by simp [hw])
      by_cases hid : q.ID = id
      · rw [show P3.getQueuePositionAux (q :: rest) id pos = pos + 1 from by
            simp [P3.getQueuePositionAux, hw, hid]]
        rw [hfq, List.findIdx?_cons, if_pos (by simp [hid])]
        simp
      · rw [show P3.getQueuePositionAux (q :: rest) id pos =
            P3.getQueuePositionAux rest id (pos + 1) from by
            simp [P3.getQueuePositionAux, hw, hid]]
        rw [ih id (pos + 1), hfq, List.findIdx?_cons,
          if_neg (by simp [hid]), List.findIdx?_succ]
        cases hfi : (rest.filter
            (fun x => decide (x.Status = "waiting"))).findIdx?
            (fun x => decide (x.ID = id)) with
        | none => simp
        | some k =>
          simp only [Option.map_some']
          push_cast
          ring
    · have hfq : (q :: rest).filter (fun x => decide (x.Status = "waiting")) =
          rest.filter (fun x => decide (x.Status = "waiting")) :=
        List.filter_cons_of_neg (by simp [hw])
      rw [show P3.getQueuePositionAux (q :: rest) id pos =
          P3.getQueuePositionAux rest id pos from by
          simp [P3.getQueuePositionAux, hw]]
      rw [ih id pos, hfq]

/-- In an all-waiting collection with duplicate-free ids, the position loop
returns the running count plus the item's 1-based index. -/
theorem P3.getQueuePosition_all_waiting :
    ∀ (items : List QueueItem), (∀ q ∈ items, q.Status = "waiting") →
      (items.map QueueItem.ID).Nodup →
      ∀ (i : Nat) (hi : i < items.length) (pos : Int),
        P3.getQueuePositionAux items (items.get ⟨i, hi⟩).ID pos =
          pos + (i : Int) + 1 := by
  intro items
  induction items with
  | nil => intro _ _ i hi; exact absurd hi (by simp)
  | cons q rest ih =>
    intro hall hnd i hi pos
    have hw : q.Status = "waiting" := hall q (List.mem_cons_self _ _)
    have hnd' : (q.ID :: rest.map QueueItem.ID).Nodup := by simpa using hnd
    cases i with
    | zero => simp [P3.getQueuePositionAux, hw]
    | succ j =>
      have hj : j < rest.length := by simpa using hi
      have hget : (q :: rest).get ⟨j + 1, hi⟩ = rest.get ⟨j, hj⟩ := rfl
      rw [hget]
      have hne : ¬ (q.ID = (rest.get ⟨j, hj⟩).ID) := by
        intro he
        exact (List.nodup_cons.1 hnd').1
          (he ▸ List.mem_map_of_mem _ (rest.get_mem j hj))
      simp only [P3.getQueuePositionAux, if_pos hw, if_neg hne]
      rw [ih (fun p hp => hall p (List.mem_cons_of_mem _ hp))
        (List.nodup_cons.1 hnd').2 j hj (pos + 1)]
      push_cast
      ring

/-- C8: GetQueuePosition returns the 1-based rank of the first waiting item
carrying the id among the waiting items in insertion order (-1 when there is
none); it is therefore unchanged when the non-waiting items are filtered
away; and over an all-waiting, duplicate-free collection — the state
produced by a sequence of Enqueue calls — the ranks are strictly increasing
in insertion order. -/
theorem c8_position_rank :
    (∀ (items : List QueueItem) (id : String),
      P3.GetQueuePosition items id =
        match (items.filter
            (fun x => decide (x.Status = "waiting"))).findIdx?
            (fun x => decide (x.ID = id)) with
        | some k => (k : Int) + 1
        | none => -1) ∧
    (∀ (items : List QueueItem) (id : String),
      P3.GetQueuePosition items id =
        P3.GetQueuePosition
          (items.filter (fun x => decide (x.Status = "waiting"))) id) ∧
    (∀ (items : List QueueItem), (∀ q ∈ items, q.Status = "waiting") →
      (items.map QueueItem.ID).Nodup →
      ∀ (i j : Nat) (hi : i < items.length) (hj : j < items.length),
        i < j →
        P3.GetQueuePosition items (items.get ⟨i, hi⟩).ID <
          P3.GetQueuePosition items (items.get ⟨j, hj⟩).ID) := by
  have hrank : ∀ (items : List QueueItem) (id : String),
      P3.GetQueuePosition items id =
        match (items.filter
            (fun x => decide (x.Status = "waiting"))).findIdx?
            (fun x => decide (x.ID = id)) with
        | some k => (k : Int) + 1
        | none => -1 := by
    intro items id
    rw [P3.GetQueuePosition, P3.getQueuePositionAux_rank items id 0]
    cases (items.filter (fun x => decide (x.Status = "waiting"))).findIdx?
        (fun x => decide (x.ID = id)) with
    | none => rfl
    | some k => simp
  refine ⟨hrank, ?_, ?_⟩
  · intro items id
    rw [hrank, hrank]
    have hff : (items.filter (fun x => decide (x.Status = "waiting"))).filter
        (fun x => decide (x.Status = "waiting")) =
        items.filter (fun x => decide (x.Status = "waiting")) := by
      rw [List.filter_filter]
      simp
    rw [hff]
  · intro items hall hnd i j hi hj hij
    rw [P3.GetQueuePosition,
      P3.getQueuePosition_all_waiting items hall hnd i hi 0,
      P3.GetQueuePosition,
      P3.getQueuePosition_all_waiting items hall hnd j hj 0]
    omega

theorem c8_position_rank_witness :
    P3.GetQueuePosition [P3.mkWaiting "a" 1 1, P3.mkWaiting "b" 1 1]
        (([P3.mkWaiting "a" 1 1,
            P3.mkWaiting "b" 1 1].get ⟨0, by decide⟩).ID) <
      P3.GetQueuePosition [P3.mkWaiting "a" 1 1, P3.mkWaiting "b" 1 1]
        (([P3.mkWaiting "a" 1 1,
            P3.mkWaiting "b" 1 1].get ⟨1, by decide⟩).ID) :=
  c8_position_rank.2.2 [P3.mkWaiting "a" 1 1, P3.mkWaiting "b" 1 1]
    (by decide) (by decide) 0 1 (by decide) (by decide) (by decide)

/-- statusRank orders the status lifecycle: waiting, then in-progress, then
completed. -/
def statusRank (s : String) : Nat :=
  if s = "waiting" then 0 else if s = "in_progress" then 1 else 2

/-- Evolves relates an item to a possibly-later version of itself: the
identity fields are unchanged and the status only moves forward along the
lifecycle. -/
def Evolves (a b : QueueItem) : Prop :=
  a.ID = b.ID ∧ a.Name = b.Name ∧ a.QueuedAt = b.QueuedAt ∧
    a.NumLoads = b.NumLoads ∧ statusRank a.Status ≤ statusRank b.Status

/-- ItemWF is the data-model invariant of the spec: start time and duration
are both set exactly for in-progress or completed items, and the completion
stamp is set exactly for completed items. -/
def ItemWF (q : QueueItem) : Prop :=
  ((q.StartTime.isSome = true ∧ q.Duration ≠ 0) ↔
    (q.Status = "in_progress" ∨ q.Status = "completed")) ∧
  (q.CompletedAt.isSome = true ↔ q.Status = "completed")

/-- Step is one store operation, with the caller-side guarantee (spec
section 6) that durations passed to the starting operations are positive;
the mutating read of `schedule.go`'s GetAll is included as a step. -/
inductive Step : List QueueItem → List QueueItem → Prop where
  | addToQueue (items : List QueueItem) (name : String) (numLoads now : Int) :
      Step items (P3.AddToQueue items name numLoads now).2
  | addAndStart (items : List QueueItem) (name : String)
      (d numLoads now : Int) (hd : 1 ≤ d) :
      Step items (P3.AddAndStart items name d numLoads now).2
  | startTimer (items : List QueueItem) (id : String) (d now : Int)
      (hd : 1 ≤ d) :
      Step items (P3.StartTimer items id d now).2
  | remove (items : List QueueItem) (id : String) :
      Step items (P3.Remove items id).2
  | sweep (items : List QueueItem) (now : Int) :
      Step items (P3.backgroundSweep items now)
  | sweepM (items : List QueueItem) (now : Int) :
      Step items (Sched.backgroundSweep items now)
  | getAllMut (items : List QueueItem) (now : Int) :
      Step items (Sched.GetAllM items now).1

/-- Reachable states are those produced from the empty store by store
operations. -/
inductive Reachable : List QueueItem → Prop where
  | init : Reachable []
  | step {s s' : List QueueItem} : Reachable s → Step s s' → Reachable s'

/-- Every item evolves to itself. -/
theorem evolves_refl (a : QueueItem) : Evolves a a :=
  ⟨rfl, rfl, rfl, rfl, le_refl _⟩

/-- The part_003 sweep transition only moves an item forward. -/
theorem P3.evolves_sweepUpdate (now : Int) (q : QueueItem) :
    Evolves q (P3.sweepUpdate now q) := by
  unfold P3.sweepUpdate
  split_ifs with h
  · refine ⟨rfl, rfl, rfl, rfl, ?_⟩
    rw [h.1]
    have hr : statusRank "in_progress" ≤ statusRank "completed" := by decide
    exact hr
  · exact evolves_refl q

/-- The schedule.go sweep transition only moves an item forward. -/
theorem Sched.evolves_sweepUpdateM (now : Int) (q : QueueItem) :
    Evolves q (Sched.sweepUpdate now q) := by
  unfold Sched.sweepUpdate
  split_ifs with h
  · refine ⟨rfl, rfl, rfl, rfl, ?_⟩
    rw [h.1]
    have hr : statusRank "in_progress" ≤ statusRank "completed" := by decide
    exact hr
  · exact evolves_refl q

/-- The schedule.go GetAll transition only moves an item forward. -/
theorem Sched.evolves_getAllUpdate (now : Int) (q : QueueItem) :
    Evolves q (Sched.getAllUpdate now q) := by
  unfold Sched.getAllUpdate
  split_ifs with h
  · refine ⟨rfl, rfl, rfl, rfl, ?_⟩
    rw [h.1]
    have hr : statusRank "in_progress" ≤ statusRank "completed" := by decide
    exact hr
  · exact evolves_refl q

/-- A waiting item evolves into its started version. -/
theorem P3.evolves_startUpdate (q : QueueItem) (d now : Int)
    (hw : q.Status = "waiting") : Evolves q (P3.startUpdate q d now) := by
  refine ⟨rfl, rfl, rfl, rfl, ?_⟩
  rw [hw]
  have hr : statusRank "waiting" ≤ statusRank "in_progress" := by decide
  exact hr

/-- Members of a StartTimer result are old items or the started version of a
waiting old item. -/
theorem P3.mem_startTimer :
    ∀ (items : List QueueItem) (id : String) (d now : Int) (b : QueueItem),
      b ∈ (P3.StartTimer items id d now).2 →
      b ∈ items ∨ ∃ a ∈ items, a.Status = "waiting" ∧
        b = P3.startUpdate a d now := by
  intro items
  induction items with
  | nil => intro id d now b hb; cases hb
  | cons q rest ih =>
    intro id d now b hb
    by_cases hc : q.ID = id ∧ q.Status = "waiting"
    · rw [show (P3.StartTimer (q :: rest) id d now).2 =
          P3.startUpdate q d now :: rest from by
          simp only [P3.StartTimer, if_pos hc]] at hb
      rcases List.mem_cons.1 hb with rfl | hb'
      · exact Or.inr ⟨q, List.mem_cons_self _ _, hc.2, rfl⟩
      · exact Or.inl (List.mem_cons_of_mem _ hb')
    · rw [show (P3.StartTimer (q :: rest) id d now).2 =
          q :: (P3.StartTimer rest id d now).2 from by
          simp only [P3.StartTimer, if_neg hc]] at hb
      rcases List.mem_cons.1 hb with rfl | hb'
      · exact Or.inl (List.mem_cons_self _ _)
      · rcases ih id d now b hb' with h | ⟨a, ha, hw, he⟩
        · exact Or.inl (List.mem_cons_of_mem _ h)
        · exact Or.inr ⟨a, List.mem_cons_of_mem _ ha, hw, he⟩

/-- Members of a Remove result were already in the collection. -/
theorem P3.mem_remove :
    ∀ (items : List QueueItem) (id : String) (b : QueueItem),
      b ∈ (P3.Remove items id).2 → b ∈ items := by
  intro items
  induction items with
  | nil => intro id b hb; cases hb
  | cons q rest ih =>
    intro id b hb
    by_cases hc : q.ID = id
    · rw [show (P3.Remove (q :: rest) id).2 = rest from by
          simp only [P3.Remove, if_pos hc]] at hb
      exact List.mem_cons_of_mem _ hb
    · rw [show (P3.Remove (q :: rest) id).2 =
          q :: (P3.Remove rest id).2 from by
          simp only [P3.Remove, if_neg hc]] at hb
      rcases List.mem_cons.1 hb with rfl | hb'
      · exact List.mem_cons_self _ _
      · exact List.mem_cons_of_mem _ (ih id b hb')

/-- Members of a part_003 sweep result are the transition images of old
items. -/
theorem P3.mem_backgroundSweep :
    ∀ (items : List QueueItem) (now : Int) (b : QueueItem),
      b ∈ P3.backgroundSweep items now →
      ∃ a ∈ items, b = P3.sweepUpdate now a := by
  intro items now b hb
  rcases List.mem_filterMap.1 hb with ⟨a, ha, hfa⟩
  unfold P3.sweepItem at hfa
  split_ifs at hfa with h
  cases hfa
  exact ⟨a, ha, rfl⟩

/-- Members of a schedule.go sweep result are the transition images of old
items. -/
theorem Sched.mem_backgroundSweepM :
    ∀ (items : List QueueItem) (now : Int) (b : QueueItem),
      b ∈ Sched.backgroundSweep items now →
      ∃ a ∈ items, b = Sched.sweepUpdate now a := by
  intro items now b hb
  rcases List.mem_filterMap.1 hb with ⟨a, ha, hfa⟩
  unfold Sched.sweepItem at hfa
  split_ifs at hfa with h
  cases hfa
  exact ⟨a, ha, rfl⟩

/-- Members of the state left by schedule.go's mutating GetAll are the
update images of old items. -/
theorem Sched.mem_getAllM :
    ∀ (items : List QueueItem) (now : Int) (b : QueueItem),
      b ∈ (Sched.GetAllM items now).1 →
      ∃ a ∈ items, b = Sched.getAllUpdate now a := by
  intro items now b hb
  rw [show (Sched.GetAllM items now).1 =
      (items.map (Sched.getAllUpdate now)).filter
        (fun q => !q.ShouldAutoRemove now) from rfl] at hb
  have hb2 := List.mem_of_mem_filter hb
  rcases List.mem_map.1 hb2 with ⟨a, ha, he⟩
  exact ⟨a, ha, he.symm⟩

/-- A freshly enqueued item satisfies the data-model invariant. -/
theorem itemWF_mkWaiting (name : String) (numLoads now : Int) :
    ItemWF (P3.mkWaiting name numLoads now) := by
  simp [ItemWF, P3.mkWaiting]

/-- A freshly started item satisfies the data-model invariant when its
duration is positive. -/
theorem itemWF_mkStarted (name : String) (d numLoads now : Int)
    (hd : 1 ≤ d) : ItemWF (P3.mkStarted name d numLoads now) := by
  simp [ItemWF, P3.mkStarted]
  omega

/-- Starting a waiting well-formed item with a positive duration yields a
well-formed item. -/
theorem itemWF_startUpdate (a : QueueItem) (d now : Int) (hWF : ItemWF a)
    (hw : a.Status = "waiting") (hd : 1 ≤ d) :
    ItemWF (P3.startUpdate a d now) := by
  obtain ⟨h1, h2⟩ := hWF
  have hca : a.CompletedAt.isSome = false := by
    cases hb : a.CompletedAt.isSome
    · rfl
    · have hcon := h2.1 hb
      rw [hw] at hcon
      exact absurd hcon (by decide)
  constructor
  · exact iff_of_true ⟨rfl, show d ≠ 0 by omega⟩ (Or.inl rfl)
  · refine iff_of_false ?_ ?_
    · rw [show (P3.startUpdate a d now).CompletedAt = a.CompletedAt from rfl,
        hca]
      decide
    · rw [show (P3.startUpdate a d now).Status = "in_progress" from rfl]
      decide

/-- The part_003 sweep transition preserves the data-model invariant. -/
theorem P3.itemWF_sweepUpdate (now : Int) (q : QueueItem) (hWF : ItemWF q) :
    ItemWF (P3.sweepUpdate now q) := by
  unfold P3.sweepUpdate
  split_ifs with h
  · obtain ⟨h1, h2⟩ := hWF
    constructor
    · exact iff_of_true (h1.mpr (Or.inl h.1)) (Or.inr rfl)
    · exact iff_of_true rfl rfl
  · exact hWF

/-- The schedule.go sweep transition preserves the data-model invariant. -/
theorem Sched.itemWF_sweepUpdateM (now : Int) (q : QueueItem)
    (hWF : ItemWF q) : ItemWF (Sched.sweepUpdate now q) := by
  unfold Sched.sweepUpdate
  split_ifs with h
  · obtain ⟨h1, h2⟩ := hWF
    constructor
    · exact iff_of_true (h1.mpr (Or.inl h.1)) (Or.inr rfl)
    · exact iff_of_true rfl rfl
  · exact hWF

/-- The schedule.go GetAll transition preserves the data-model invariant. -/
theorem Sched.itemWF_getAllUpdate (now : Int) (q : QueueItem)
    (hWF : ItemWF q) : ItemWF (Sched.getAllUpdate now q) := by
  unfold Sched.getAllUpdate
  split_ifs with h
  · obtain ⟨h1, h2⟩ := hWF
    constructor
    · exact iff_of_true (h1.mpr (Or.inl h.1)) (Or.inr rfl)
    · refine iff_of_true ?_ rfl
      show (match q.CompletedAt with
            | none => some now
            | some c => some c).isSome = true
      cases q.CompletedAt <;> rfl
  · exact hWF

/-- Every store operation preserves well-formedness of all items. -/
theorem stepWF {s s' : List QueueItem} (hstep : Step s s')
    (hWF : ∀ q ∈ s, ItemWF q) : ∀ q ∈ s', ItemWF q := by
  cases hstep with
  | addToQueue name numLoads now =>
    intro b hb
    rw [show (P3.AddToQueue s name numLoads now).2 =
        s ++ [P3.mkWaiting name numLoads now] from rfl] at hb
    rcases List.mem_append.1 hb with hb' | hb'
    · exact hWF b hb'
    · rw [List.mem_singleton.1 hb']
      exact itemWF_mkWaiting name numLoads now
  | addAndStart name d numLoads now hd =>
    intro b hb
    rw [show (P3.AddAndStart s name d numLoads now).2 =
        s ++ [P3.mkStarted name d numLoads now] from rfl] at hb
    rcases List.mem_append.1 hb with hb' | hb'
    · exact hWF b hb'
    · rw [List.mem_singleton.1 hb']
      exact itemWF_mkStarted name d numLoads now hd
  | startTimer id d now hd =>
    intro b hb
    rcases P3.mem_startTimer s id d now b hb with hb' | ⟨a, ha, hw, he⟩
    · exact hWF b hb'
    · rw [he]
      exact itemWF_startUpdate a d now (hWF a ha) hw hd
  | remove id =>
    intro b hb
    exact hWF b (P3.mem_remove s id b hb)
  | sweep now =>
    intro b hb
    rcases P3.mem_backgroundSweep s now b hb with ⟨a, ha, he⟩
    rw [he]
    exact P3.itemWF_sweepUpdate now a (hWF a ha)
  | sweepM now =>
    intro b hb
    rcases Sched.mem_backgroundSweepM s now b hb with ⟨a, ha, he⟩
    rw [he]
    exact Sched.itemWF_sweepUpdateM now a (hWF a ha)
  | getAllMut now =>
    intro b hb
    rcases Sched.mem_getAllM s now b hb with ⟨a, ha, he⟩
    rw [he]
    exact Sched.itemWF_getAllUpdate now a (hWF a ha)

/-- After any single store operation, every item either evolved forward from
an item of the previous state or is freshly created at the start of its
lifecycle. -/
theorem stepEvolves {s s' : List QueueItem} (hstep : Step s s') :
    ∀ b ∈ s', (∃ a ∈ s, Evolves a b) ∨
      ((b.Status = "waiting" ∨ b.Status = "in_progress") ∧
        b.CompletedAt = none) := by
  cases hstep with
  | addToQueue name numLoads now =>
    intro b hb
    rw [show (P3.AddToQueue s name numLoads now).2 =
        s ++ [P3.mkWaiting name numLoads now] from rfl] at hb
    rcases List.mem_append.1 hb with hb' | hb'
    · exact Or.inl ⟨b, hb', evolves_refl b⟩
    · rw [List.mem_singleton.1 hb']
      exact Or.inr ⟨Or.inl rfl, rfl⟩
  | addAndStart name d numLoads now hd =>
    intro b hb
    rw [show (P3.AddAndStart s name d numLoads now).2 =
        s ++ [P3.mkStarted name d numLoads now] from rfl] at hb
    rcases List.mem_append.1 hb with hb' | hb'
    · exact Or.inl ⟨b, hb', evolves_refl b⟩
    · rw [List.mem_singleton.1 hb']
      exact Or.inr ⟨Or.inr rfl, rfl⟩
  | startTimer id d now hd =>
    intro b hb
    rcases P3.mem_startTimer s id d now b hb with hb' | ⟨a, ha, hw, he⟩
    · exact Or.inl ⟨b, hb', evolves_refl b⟩
    · rw [he]
      exact Or.inl ⟨a, ha, P3.evolves_startUpdate a d now hw⟩
  | remove id =>
    intro b hb
    exact Or.inl ⟨b, P3.mem_remove s id b hb, evolves_refl b⟩
  | sweep now =>
    intro b hb
    rcases P3.mem_backgroundSweep s now b hb with ⟨a, ha, he⟩
    rw [he]
    exact Or.inl ⟨a, ha, P3.evolves_sweepUpdate now a⟩
  | sweepM now =>
    intro b hb
    rcases Sched.mem_backgroundSweepM s now b hb with ⟨a, ha, he⟩
    rw [he]
    exact Or.inl ⟨a, ha, Sched.evolves_sweepUpdateM now a⟩
  | getAllMut now =>
    intro b hb
    rcases Sched.mem_getAllM s now b hb with ⟨a, ha, he⟩
    rw [he]
    exact Or.inl ⟨a, ha, Sched.evolves_getAllUpdate now a⟩

/-- C9: assuming callers pass positive durations to the starting operations,
every state reachable by store operations satisfies the data-model
invariant — start time and duration are both set iff the status is
in-progress or completed, and the completion stamp is set iff the status is
completed; moreover each single operation moves every retained item only
forward along the waiting → in-progress → completed lifecycle (identity
fields unchanged), and every new item enters at waiting or in-progress with
no completion stamp, so no backward transition ever occurs. -/
theorem c9_lifecycle :
    (∀ s, Reachable s → ∀ q ∈ s, ItemWF q) ∧
    (∀ s s', Step s s' → ∀ b ∈ s',
      (∃ a ∈ s, Evolves a b) ∨
        ((b.Status = "waiting" ∨ b.Status = "in_progress") ∧
          b.CompletedAt = none)) := by
  constructor
  · intro s hreach
    induction hreach with
    | init => intro q hq; cases hq
    | step hr hstep ih => exact stepWF hstep ih
  · intro s s' hstep
    exact stepEvolves hstep

theorem c9_lifecycle_witness : ItemWF (P3.mkWaiting "ann" 2 7) :=
  c9_lifecycle.1 (P3.AddToQueue [] "ann" 2 7).2
    (Reachable.step Reachable.init (Step.addToQueue [] "ann" 2 7))
    (P3.mkWaiting "ann" 2 7) (by decide)
